import Mathlib

/-!
Verification of the session-store specification for `prisma-session-store`.

The repository ships only TypeScript declaration files (`src/lib/prisma-session-store.d.ts`
and `src/lib/utils/create-expiration.d.ts`); the implementations of the declared
operations are not part of the sources.  Every operation below is therefore a
shallow embedding modelled from the specification's description of the component,
as noted in each doc comment.

Layout: data model and operations first, then the lemmas and the claim theorems.
-/

namespace PrismaSessionStore

mutual
/-- Modelled from the spec: the serializer's payload domain, "any JSON-representable
payload (objects, arrays, primitives, nested combinations)".  The implementation of
the serializer is missing from `src/` (only the `serializer` field declaration at
`prisma-session-store.d.ts:77` exists). -/
inductive Json where
  | null : Json
  | bool (b : Bool) : Json
  | num (n : Int) : Json
  | str (s : String) : Json
  | arr (elems : JsonList) : Json
  | obj (fields : JsonObj) : Json
deriving DecidableEq
inductive JsonList where
  | nil : JsonList
  | cons (hd : Json) (tl : JsonList) : JsonList
deriving DecidableEq
inductive JsonObj where
  | nil : JsonObj
  | cons (key : String) (val : Json) (tl : JsonObj) : JsonObj
deriving DecidableEq
end

/-- Error taxonomy of the spec (section 7); only the payload error is needed by the
serializer boundary. -/
inductive StoreError where
  | malformedPayload : StoreError
deriving DecidableEq

/-- Unary length marker used by the concrete serialization format: `n` copies of
`x` terminated by `;`. -/
def encNat (n : Nat) : List Char :=
  List.replicate n 'x' ++ [';']

mutual
/-- Modelled from the spec: "serialize(payload) -> string", a total injective
encoding of payloads into character data.  The spec fixes no concrete format; this
one is length-prefixed so that deserialization is total and fail-fast. -/
def Json.enc : Json → List Char
  | .null => ['n']
  | .bool true => ['t']
  | .bool false => ['f']
  | .num n => 'i' :: (if n < 0 then '-' else '+') :: encNat n.natAbs
  | .str s => 's' :: (encNat s.data.length ++ s.data)
  | .arr xs => 'a' :: (xs.enc ++ ['e'])
  | .obj ms => 'o' :: (ms.enc ++ ['e'])
def JsonList.enc : JsonList → List Char
  | .nil => []
  | .cons x xs => x.enc ++ xs.enc
def JsonObj.enc : JsonObj → List Char
  | .nil => []
  | .cons k v ms => 's' :: (encNat k.data.length ++ k.data) ++ v.enc ++ ms.enc
end

/-- Reads back a unary length marker written by `encNat`. -/
def parseUnary : List Char → Option (Nat × List Char)
  | [] => none
  | c :: r =>
    if c = ';' then some (0, r)
    else if c = 'x' then (parseUnary r).map (fun p => (p.1 + 1, p.2))
    else none

mutual
/-- Modelled from the spec: the deserializer's core, a fuel-indexed decoder for the
format of `Json.enc`; any input that is not a valid encoding yields `none`. -/
def dec : Nat → List Char → Option (Json × List Char)
  | 0, _ => none
  | _ + 1, [] => none
  | fuel + 1, c :: r =>
    if c = 'n' then some (.null, r)
    else if c = 't' then some (.bool true, r)
    else if c = 'f' then some (.bool false, r)
    else if c = 'i' then
      match r with
      | [] => none
      | sgn :: r2 =>
        if sgn = '+' then (parseUnary r2).map (fun p => (.num (Int.ofNat p.1), p.2))
        else if sgn = '-' then (parseUnary r2).map (fun p => (.num (-(p.1 : Int)), p.2))
        else none
    else if c = 's' then
      match parseUnary r with
      | none => none
      | some (len, r2) =>
        if len ≤ r2.length then some (.str (String.mk (r2.take len)), r2.drop len)
        else none
    else if c = 'a' then
      match decList fuel r with
      | none => none
      | some (xs, r2) => some (.arr xs, r2)
    else if c = 'o' then
      match decObj fuel r with
      | none => none
      | some (ms, r2) => some (.obj ms, r2)
    else none
def decList : Nat → List Char → Option (JsonList × List Char)
  | 0, _ => none
  | _ + 1, [] => none
  | fuel + 1, c :: r =>
    if c = 'e' then some (.nil, r)
    else
      match dec fuel (c :: r) with
      | none => none
      | some (x, r2) =>
        match decList fuel r2 with
        | none => none
        | some (xs, r3) => some (.cons x xs, r3)
def decObj : Nat → List Char → Option (JsonObj × List Char)
  | 0, _ => none
  | _ + 1, [] => none
  | fuel + 1, c :: r =>
    if c = 'e' then some (.nil, r)
    else if c = 's' then
      match parseUnary r with
      | none => none
      | some (len, r2) =>
        if len ≤ r2.length then
          match dec fuel (r2.drop len) with
          | none => none
          | some (v, r3) =>
            match decObj fuel r3 with
            | none => none
            | some (ms, r4) => some (.cons (String.mk (r2.take len)) v ms, r4)
        else none
    else none
end

/-- Modelled from the spec: "serialize(payload) -> string" (the `serializer` field
declared at `prisma-session-store.d.ts:77`; its implementation is not in `src/`). -/
def serialize (j : Json) : String :=
  String.mk j.enc

/-- Modelled from the spec: "deserialize(string) -> payload", failing "with a
`MalformedPayload` error on invalid input" instead of throwing. -/
def deserialize (s : String) : Except StoreError Json :=
  match dec s.data.length s.data with
  | some (j, []) => Except.ok j
  | _ => Except.error StoreError.malformedPayload

/-- Modelled from the spec: `createExpiration(shelfLifeMs, options)` from
`src/lib/utils/create-expiration.d.ts` (its implementation is not in `src/`):
"Returns current time plus `ttlMs`.  If `rounding` given, the result is floored to
the nearest multiple of that many milliseconds."  The current time is passed
explicitly so the function stays pure. -/
def createExpiration (now shelfLifeMs : Nat) (rounding : Option Nat) : Nat :=
  match rounding with
  | none => now + shelfLifeMs
  | some r => (now + shelfLifeMs) / r * r

/-- Backend row shape from the spec (section 6): `{ id, sid, data: string,
expiresAt: timestamp }`; the opaque backend record id is irrelevant to the claims
and rows are addressed by `sid`, as the lookups in the spec are. -/
structure SessionRecord where
  sid : String
  data : String
  expiresAt : Nat
deriving DecidableEq

/-- Store state from the spec (section 3): the connection-health flag
(`invalidConnection`, `prisma-session-store.d.ts:68`) plus the configured TTL and
rounding, together with the backend's session table (owned by the backend; held
here to give the backend calls semantics). -/
structure Store where
  invalidConnection : Bool
  ttl : Nat
  rounding : Option Nat
  sessions : List SessionRecord
deriving DecidableEq

/-- Calls this adapter can issue against the ORM backend (spec section 6). -/
inductive BackendCall where
  | findUnique (sid : String) : BackendCall
  | findMany : BackendCall
  | upsert (sid : String) : BackendCall
  | deleteMany : BackendCall
  | count : BackendCall
deriving DecidableEq

/-- Output of one operation: the store state afterwards, the value the promise
resolves with, and the trace of backend calls issued. -/
structure OpOut (α : Type) where
  store : Store
  result : α
  calls : List BackendCall
deriving DecidableEq

/-- Modelled from the spec: `validateConnection` (`prisma-session-store.d.ts:102`,
implementation not in `src/`): "Returns if the connect is valid or not". -/
def validateConnection (s : Store) : Bool :=
  !s.invalidConnection

/-- Modelled from the spec: `disable` (`prisma-session-store.d.ts:98`): "Disables
store, used when prisma cannot be connected to". -/
def disable (s : Store) : Store :=
  { s with invalidConnection := true }

/-- Row lookup by session id, the backend's `findUnique` over the session table. -/
def findBySid (l : List SessionRecord) (sid : String) : Option SessionRecord :=
  l.find? (fun r => r.sid = sid)

/-- Row upsert keyed by session id: replace the row with this sid in place, or
append a new row. -/
def upsertRecord (l : List SessionRecord) (v : SessionRecord) : List SessionRecord :=
  match l with
  | [] => [v]
  | r :: rest => if r.sid = v.sid then v :: rest else r :: upsertRecord rest v

/-- Modelled from the spec: `get(sid)` (`prisma-session-store.d.ts:132`,
implementation not in `src/`): guard check, fetch by key, absent or
`expiresAt <= now` resolves `undefined`, malformed payload resolves `undefined`. -/
def Store.get (s : Store) (now : Nat) (sid : String) : OpOut (Option Json) :=
  if validateConnection s = false then ⟨s, none, []⟩
  else
    match findBySid s.sessions sid with
    | none => ⟨s, none, [.findUnique sid]⟩
    | some r =>
      if r.expiresAt ≤ now then ⟨s, none, [.findUnique sid]⟩
      else
        match deserialize r.data with
        | .ok j => ⟨s, some j, [.findUnique sid]⟩
        | .error _ => ⟨s, none, [.findUnique sid]⟩

/-- Modelled from the spec: `set(sid, session)` (`prisma-session-store.d.ts:159`,
implementation not in `src/`): guard check, recompute `expiresAt` from the
configured TTL, serialize, upsert keyed by the backend id. -/
def Store.set (s : Store) (now : Nat) (sid : String) (data : Json) : OpOut (Option Unit) :=
  if validateConnection s = false then ⟨s, none, []⟩
  else
    let v : SessionRecord :=
      { sid := sid, data := serialize data,
        expiresAt := createExpiration now s.ttl s.rounding }
    ⟨{ s with sessions := upsertRecord s.sessions v }, some (), [.upsert sid]⟩

/-- Modelled from the spec: `touch(sid, session)` (`prisma-session-store.d.ts:180`,
implementation not in `src/`): refresh `expiresAt` without altering stored data; a
touch on a missing sid is a no-op, not an error. -/
def Store.touch (s : Store) (now : Nat) (sid : String) : OpOut (Option Unit) :=
  if validateConnection s = false then ⟨s, none, []⟩
  else
    match findBySid s.sessions sid with
    | none => ⟨s, some (), [.findUnique sid]⟩
    | some r =>
      let v : SessionRecord := { r with expiresAt := createExpiration now s.ttl s.rounding }
      ⟨{ s with sessions := upsertRecord s.sessions v }, some (),
        [.findUnique sid, .upsert sid]⟩

/-- Modelled from the spec: `destroy(sid | sid[])` (`prisma-session-store.d.ts:125`,
implementation not in `src/`): delete one or many rows by key; missing keys are not
errors.  A single sid is the singleton list. -/
def Store.destroy (s : Store) (sids : List String) : OpOut (Option Unit) :=
  if validateConnection s = false then ⟨s, none, []⟩
  else
    ⟨{ s with sessions := s.sessions.filter (fun r => decide (r.sid ∉ sids)) },
      some (), [.deleteMany]⟩

/-- Modelled from the spec: `all()` (`prisma-session-store.d.ts:110`, implementation
not in `src/`): session data of every non-expired record; expired records are
excluded but not deleted, malformed rows are skipped like absent ones. -/
def Store.all (s : Store) (now : Nat) : OpOut (Option (List (String × Json))) :=
  if validateConnection s = false then ⟨s, none, []⟩
  else
    ⟨s, some (s.sessions.filterMap (fun r =>
      if now < r.expiresAt then
        match deserialize r.data with
        | .ok j => some (r.sid, j)
        | .error _ => none
      else none)), [.findMany]⟩

/-- Modelled from the spec: `ids()` (`prisma-session-store.d.ts:139`, implementation
not in `src/`): all session ids, including expired ones, straight off the backend
rows. -/
def Store.ids (s : Store) : OpOut (Option (List String)) :=
  if validateConnection s = false then ⟨s, none, []⟩
  else ⟨s, some (s.sessions.map (fun r => r.sid)), [.findMany]⟩

/-- Modelled from the spec: `length()` (`prisma-session-store.d.ts:146`,
implementation not in `src/`): the count of all rows in the backend store. -/
def Store.length (s : Store) : OpOut (Option Nat) :=
  if validateConnection s = false then ⟨s, none, []⟩
  else ⟨s, some s.sessions.length, [.count]⟩

/-- Modelled from the spec: `clear()` (`prisma-session-store.d.ts:117`,
implementation not in `src/`): delete every row unconditionally. -/
def Store.clear (s : Store) : OpOut (Option Unit) :=
  if validateConnection s = false then ⟨s, none, []⟩
  else ⟨{ s with sessions := [] }, some (), [.deleteMany]⟩

/-- Modelled from the spec: `prune()` (`prisma-session-store.d.ts:150`,
implementation not in `src/`): delete every row whose `expiresAt <= now`. -/
def Store.prune (s : Store) (now : Nat) : OpOut (Option Unit) :=
  if validateConnection s = false then ⟨s, none, []⟩
  else
    ⟨{ s with sessions := s.sessions.filter (fun r => decide (now < r.expiresAt)) },
      some (), [.deleteMany]⟩

/-- The public operations, as one type so temporal claims can quantify over them. -/
inductive Op where
  | get (sid : String) : Op
  | set (sid : String) (data : Json) : Op
  | touch (sid : String) : Op
  | destroy (sids : List String) : Op
  | all : Op
  | ids : Op
  | length : Op
  | clear : Op
  | prune : Op

/-- Result union across the public operations. -/
inductive OpResult where
  | session (v : Option Json) : OpResult
  | table (v : Option (List (String × Json))) : OpResult
  | sidList (v : Option (List String)) : OpResult
  | count (v : Option Nat) : OpResult
  | done (v : Option Unit) : OpResult
deriving DecidableEq

/-- Dispatcher running one public operation. -/
def runOp (s : Store) (now : Nat) : Op → Store × OpResult × List BackendCall
  | .get sid => let o := s.get now sid; (o.store, .session o.result, o.calls)
  | .set sid d => let o := s.set now sid d; (o.store, .done o.result, o.calls)
  | .touch sid => let o := s.touch now sid; (o.store, .done o.result, o.calls)
  | .destroy sids => let o := s.destroy sids; (o.store, .done o.result, o.calls)
  | .all => let o := s.all now; (o.store, .table o.result, o.calls)
  | .ids => let o := s.ids; (o.store, .sidList o.result, o.calls)
  | .length => let o := s.length; (o.store, .count o.result, o.calls)
  | .clear => let o := s.clear; (o.store, .done o.result, o.calls)
  | .prune => let o := s.prune now; (o.store, .done o.result, o.calls)

/-- The empty / no-op result each operation resolves with while the store is
disabled (spec section 7: "a disabled store behaves as an always-empty,
always-succeeding-with-no-op store"). -/
def emptyResult : Op → OpResult
  | .get _ => .session none
  | .set _ _ => .done none
  | .touch _ => .done none
  | .destroy _ => .done none
  | .all => .table none
  | .ids => .sidList none
  | .length => .count none
  | .clear => .done none
  | .prune => .done none

/-- Runs a sequence of operations, accumulating the backend calls issued. -/
def runOps (s : Store) (now : Nat) : List Op → Store × List BackendCall
  | [] => (s, [])
  | op :: rest =>
    let o := runOp s now op
    let o2 := runOps o.1 now rest
    (o2.1, o.2.2 ++ o2.2)

/-- Modelled from the spec: the dual calling convention's callback side, "resolving
/ calling back exactly once per invocation, including on every error path".  Each
operation's branch structure is mirrored and every branch records the callback
invocations it performs, so that forgetting or doubling a callback on some branch
would be visible. -/
def opCallbackEvents (s : Store) (now : Nat) : Op → List OpResult
  | .get sid =>
    if validateConnection s = false then [.session none]
    else
      match findBySid s.sessions sid with
      | none => [.session none]
      | some r =>
        if r.expiresAt ≤ now then [.session none]
        else
          match deserialize r.data with
          | .ok j => [.session (some j)]
          | .error _ => [.session none]
  | .set _ _ =>
    if validateConnection s = false then [.done none] else [.done (some ())]
  | .touch sid =>
    if validateConnection s = false then [.done none]
    else
      match findBySid s.sessions sid with
      | none => [.done (some ())]
      | some _ => [.done (some ())]
  | .destroy _ =>
    if validateConnection s = false then [.done none] else [.done (some ())]
  | .all =>
    if validateConnection s = false then [.table none]
    else [.table (s.all now).result]
  | .ids =>
    if validateConnection s = false then [.sidList none]
    else [.sidList (some (s.sessions.map (fun r => r.sid)))]
  | .length =>
    if validateConnection s = false then [.count none]
    else [.count (some s.sessions.length)]
  | .clear =>
    if validateConnection s = false then [.done none] else [.done (some ())]
  | .prune =>
    if validateConnection s = false then [.done none] else [.done (some ())]

/-- Modelled from the spec: pruning-scheduler state (section 4.6; the
`checkInterval` field is declared at `prisma-session-store.d.ts:57`, the
implementations of `startInterval` / `stopInterval` are not in `src/`).
`checkInterval` is the held timer handle, `live` the timers actually existing in
the runtime, `pruneCount` how many scheduled prune invocations have fired. -/
structure Sched where
  checkInterval : Option Nat
  live : List Nat
  nextId : Nat
  pruneCount : Nat
deriving DecidableEq

/-- A store starts with no interval active. -/
def Sched.init : Sched :=
  ⟨none, [], 0, 0⟩

/-- Modelled from the spec: `startInterval` — "if no interval active, creates one
that invokes `prune()` every configured period". -/
def startInterval (s : Sched) : Sched :=
  match s.checkInterval with
  | some _ => s
  | none => ⟨some s.nextId, s.nextId :: s.live, s.nextId + 1, s.pruneCount⟩

/-- Modelled from the spec: `stopInterval` — "cancels the active timer; no-op if
none active". -/
def stopInterval (s : Sched) : Sched :=
  match s.checkInterval with
  | none => s
  | some t => ⟨none, s.live.filter (fun i => decide (i ≠ t)), s.nextId, s.pruneCount⟩

/-- One scheduling period elapsing: every live timer fires its prune once. -/
def schedTick (s : Sched) : Sched :=
  ⟨s.checkInterval, s.live, s.nextId, s.pruneCount + s.live.length⟩

/-- Events the scheduler reacts to. -/
inductive SchedEvent where
  | start : SchedEvent
  | stop : SchedEvent
  | tick : SchedEvent
deriving DecidableEq

/-- Step function of the scheduler state machine. -/
def schedStep (s : Sched) : SchedEvent → Sched
  | .start => startInterval s
  | .stop => stopInterval s
  | .tick => schedTick s

/-- Runs a sequence of scheduler events. -/
def schedRun (s : Sched) : List SchedEvent → Sched
  | [] => s
  | e :: rest => schedRun (schedStep s e) rest

/-- The scheduler's handle/timer agreement: the held handle points at exactly the
live timers. -/
def SchedInv (s : Sched) : Prop :=
  s.live = (match s.checkInterval with
  | some t => [t]
  | none => [])

theorem encNat_length (n : Nat) : (encNat n).length = n + 1 := by
  simp [encNat]

theorem parseUnary_encNat (n : Nat) (rest : List Char) :
    parseUnary (encNat n ++ rest) = some (n, rest) := by
  induction n with
  | zero => simp [encNat, parseUnary]
  | succ n ih =>
    have h : encNat (n + 1) ++ rest = 'x' :: (encNat n ++ rest) := by
      simp [encNat, List.replicate_succ]
    rw [h]
    simp [parseUnary, ih]

theorem Json.enc_cons (j : Json) : ∃ c r, j.enc = c :: r ∧ ¬c = 'e' := by
  cases j with
  | null => exact ⟨'n', [], rfl, by simp⟩
  | bool b =>
    cases b with
    | false => exact ⟨'f', [], rfl, by simp⟩
    | true => exact ⟨'t', [], rfl, by simp⟩
  | num n => exact ⟨'i', _, rfl, by simp⟩
  | str s => exact ⟨'s', _, rfl, by simp⟩
  | arr xs => exact ⟨'a', _, rfl, by simp⟩
  | obj ms => exact ⟨'o', _, rfl, by simp⟩

theorem Json.enc_length_pos (j : Json) : 1 ≤ j.enc.length := by
  obtain ⟨c, r, h, -⟩ := j.enc_cons
  rw [h]
  simp

/-- The decoder inverts the encoder on every payload, list of payloads, and object
field list, given fuel at least the length of the encoding. -/
theorem decRound (fuel : Nat) :
    (∀ j rest, j.enc.length ≤ fuel → dec fuel (j.enc ++ rest) = some (j, rest)) ∧
    (∀ xs rest, xs.enc.length + 1 ≤ fuel →
      decList fuel (xs.enc ++ 'e' :: rest) = some (xs, rest)) ∧
    (∀ ms rest, ms.enc.length + 1 ≤ fuel →
      decObj fuel (ms.enc ++ 'e' :: rest) = some (ms, rest)) := by
  induction fuel with
  | zero =>
    refine ⟨?_, ?_, ?_⟩
    · intro j rest h
      have := j.enc_length_pos
      omega
    · intro xs rest h
      omega
    · intro ms rest h
      omega
  | succ fuel ih =>
    obtain ⟨ihJ, ihL, ihO⟩ := ih
    refine ⟨?_, ?_, ?_⟩
    · intro j rest hlen
      cases j with
      | null => simp [Json.enc, dec]
      | bool b =>
        cases b with
        | false => simp [Json.enc, dec]
        | true => simp [Json.enc, dec]
      | num n =>
        by_cases hn : n < 0
        · have h1 : Json.enc (.num n) = 'i' :: '-' :: encNat n.natAbs := by
            simp [Json.enc, hn]
          rw [h1]
          simp [dec, parseUnary_encNat]
          rw [abs_of_neg hn, neg_neg]
        · have h1 : Json.enc (.num n) = 'i' :: '+' :: encNat n.natAbs := by
            simp [Json.enc, hn]
          rw [h1]
          simp [dec, parseUnary_encNat]
          omega
      | str s =>
        have h1 : Json.enc (.str s) ++ rest
            = 's' :: (encNat s.data.length ++ (s.data ++ rest)) := by
          simp [Json.enc]
        rw [h1]
        simp [dec, parseUnary_encNat, List.take_left, List.drop_left]
      | arr xs =>
        have h1 : Json.enc (.arr xs) ++ rest = 'a' :: (xs.enc ++ 'e' :: rest) := by
          simp [Json.enc]
        have hfuel : xs.enc.length + 1 ≤ fuel := by
          simp [Json.enc] at hlen
          omega
        rw [h1]
        simp [dec, ihL _ _ hfuel]
      | obj ms =>
        have h1 : Json.enc (.obj ms) ++ rest = 'o' :: (ms.enc ++ 'e' :: rest) := by
          simp [Json.enc]
        have hfuel : ms.enc.length + 1 ≤ fuel := by
          simp [Json.enc] at hlen
          omega
        rw [h1]
        simp [dec, ihO _ _ hfuel]
    · intro xs rest hlen
      cases xs with
      | nil => simp [JsonList.enc, decList]
      | cons x xs2 =>
        obtain ⟨c, r, hx, hc⟩ := x.enc_cons
        have h1 : (JsonList.cons x xs2).enc ++ 'e' :: rest
            = c :: (r ++ (xs2.enc ++ 'e' :: rest)) := by
          simp [JsonList.enc, hx]
        have hlen' : x.enc.length + xs2.enc.length + 1 ≤ fuel + 1 := by
          simp [JsonList.enc] at hlen
          omega
        have hlen1 : x.enc.length ≤ fuel := by
          omega
        have hlen2 : xs2.enc.length + 1 ≤ fuel := by
          have := x.enc_length_pos
          omega
        have hdec : dec fuel (c :: (r ++ (xs2.enc ++ 'e' :: rest)))
            = some (x, xs2.enc ++ 'e' :: rest) := by
          have h2 := ihJ x (xs2.enc ++ 'e' :: rest) hlen1
          rw [hx] at h2
          simpa using h2
        rw [h1]
        simp [decList, hc, hdec, ihL _ _ hlen2]
    · intro ms rest hlen
      cases ms with
      | nil => simp [JsonObj.enc, decObj]
      | cons k v ms2 =>
        have h1 : (JsonObj.cons k v ms2).enc ++ 'e' :: rest
            = 's' :: (encNat k.data.length
                ++ (k.data ++ (v.enc ++ (ms2.enc ++ 'e' :: rest)))) := by
          simp [JsonObj.enc]
        have hlen' : 1 + (k.length + 1) + k.length + v.enc.length
            + ms2.enc.length ≤ fuel + 1 := by
          simp [JsonObj.enc, encNat_length] at hlen
          omega
        have hv : v.enc.length ≤ fuel := by
          omega
        have hms : ms2.enc.length + 1 ≤ fuel := by
          have := v.enc_length_pos
          omega
        rw [h1]
        simp [decObj, parseUnary_encNat, List.take_left, List.drop_left,
          ihJ v _ hv, ihO _ _ hms]

/-- Round-trip on the string boundary. -/
theorem deserialize_serialize (j : Json) : deserialize (serialize j) = Except.ok j := by
  have h := (decRound j.enc.length).1 j [] (le_refl _)
  rw [List.append_nil] at h
  simp [deserialize, serialize, h]

theorem findBySid_upsertRecord_self (l : List SessionRecord) (v : SessionRecord) :
    findBySid (upsertRecord l v) v.sid = some v := by
  induction l with
  | nil => simp [upsertRecord, findBySid]
  | cons r rest ih =>
    by_cases h : r.sid = v.sid
    · simp [upsertRecord, h, findBySid]
    · simp only [upsertRecord, if_neg h]
      simp only [findBySid, List.find?] at ih ⊢
      simp [h, ih]

theorem findBySid_upsertRecord_other (l : List SessionRecord) (v : SessionRecord)
    (sid : String) (hne : ¬sid = v.sid) :
    findBySid (upsertRecord l v) sid = findBySid l sid := by
  induction l with
  | nil =>
    have hv : ¬v.sid = sid := fun h2 => hne h2.symm
    simp [upsertRecord, findBySid, List.find?, hv]
  | cons r rest ih =>
    by_cases h : r.sid = v.sid
    · have hr : ¬r.sid = sid := by
        rw [h]
        intro h2
        exact hne h2.symm
      simp only [upsertRecord, if_pos h, findBySid, List.find?]
      have hv : ¬v.sid = sid := fun h2 => hne h2.symm
      simp [hr, hv]
    · simp only [upsertRecord, if_neg h, findBySid, List.find?] at ih ⊢
      by_cases hr : r.sid = sid
      · simp [hr]
      · simp [hr, ih]

theorem findBySid_some_sid {l : List SessionRecord} {sid : String} {r : SessionRecord}
    (h : findBySid l sid = some r) : r.sid = sid := by
  have := List.find?_some h
  simpa using this

theorem runOp_disabled (s : Store) (now : Nat) (op : Op)
    (h : s.invalidConnection = true) :
    runOp s now op = (s, emptyResult op, []) := by
  cases op <;>
    simp [runOp, Store.get, Store.set, Store.touch, Store.destroy, Store.all,
      Store.ids, Store.length, Store.clear, Store.prune, validateConnection,
      emptyResult, h]

theorem runOps_disabled (s : Store) (now : Nat) (h : s.invalidConnection = true) :
    ∀ ops, runOps s now ops = (s, []) := by
  intro ops
  induction ops with
  | nil => simp [runOps]
  | cons op rest ih => simp [runOps, runOp_disabled s now op h, ih]

theorem runOp_invalidConnection (s : Store) (now : Nat) (op : Op) :
    (runOp s now op).1.invalidConnection = s.invalidConnection := by
  cases op <;>
    simp only [runOp, Store.get, Store.set, Store.touch, Store.destroy, Store.all,
      Store.ids, Store.length, Store.clear, Store.prune] <;>
    (repeat' split) <;> rfl

theorem schedStep_inv (s : Sched) (e : SchedEvent) (h : SchedInv s) :
    SchedInv (schedStep s e) := by
  cases e with
  | start =>
    simp only [schedStep, startInterval]
    cases hc : s.checkInterval with
    | none =>
      simp only [SchedInv, hc] at h
      simp [SchedInv, h]
    | some t => simpa [hc] using h
  | stop =>
    simp only [schedStep, stopInterval]
    cases hc : s.checkInterval with
    | none => simpa [hc] using h
    | some t =>
      simp only [SchedInv, hc] at h
      simp [SchedInv, h]
  | tick => simpa [schedStep, schedTick, SchedInv] using h

theorem schedRun_inv (evs : List SchedEvent) :
    ∀ s, SchedInv s → SchedInv (schedRun s evs) := by
  induction evs with
  | nil =>
    intro s h
    simpa [schedRun] using h
  | cons e rest ih =>
    intro s h
    simp only [schedRun]
    exact ih _ (schedStep_inv s e h)

theorem tickRun_pruneCount (n : Nat) :
    ∀ s : Sched, s.live = [] →
      (schedRun s (List.replicate n SchedEvent.tick)).pruneCount = s.pruneCount := by
  induction n with
  | zero =>
    intro s h
    simp [schedRun]
  | succ n ih =>
    intro s h
    simp only [List.replicate_succ, schedRun, schedStep]
    have h2 : (schedTick s).live = [] := h
    rw [ih _ h2]
    simp [schedTick, h]

/-- C1: once `invalidConnection` (the disabled flag) is true it never resets — no
operation changes it — and while it is true every public operation leaves the store
unchanged, resolves with its empty/no-op result, and issues no backend calls, both
for single operations and over arbitrary operation sequences. -/
theorem disabled_flag_terminal_and_backend_silent :
    ∀ (s : Store) (now : Nat) (op : Op),
      (runOp s now op).1.invalidConnection = s.invalidConnection ∧
      (s.invalidConnection = true → runOp s now op = (s, emptyResult op, [])) ∧
      (∀ ops, s.invalidConnection = true → runOps s now ops = (s, [])) := by
  intro s now op
  exact ⟨runOp_invalidConnection s now op,
    fun h => runOp_disabled s now op h,
    fun ops h => runOps_disabled s now h ops⟩

/-- Witness for C1: a concrete disabled store is left untouched, with no backend
calls, by a single operation and by a sequence of operations. -/
theorem disabled_flag_terminal_witness :
    runOp ⟨true, 10, none, []⟩ 0 Op.ids = (⟨true, 10, none, []⟩, emptyResult Op.ids, []) ∧
    runOps ⟨true, 10, none, []⟩ 0 [Op.ids, Op.clear] = (⟨true, 10, none, []⟩, []) :=
  ⟨(disabled_flag_terminal_and_backend_silent ⟨true, 10, none, []⟩ 0 Op.ids).2.1 rfl,
   (disabled_flag_terminal_and_backend_silent ⟨true, 10, none, []⟩ 0 Op.ids).2.2
     [Op.ids, Op.clear] rfl⟩

/-- C2: `get` never mutates the store (in particular an expired record is not
deleted), resolves `none` when the record is absent, when the record's `expiresAt`
is at or before the current time, and when the payload fails to deserialize, and
otherwise resolves with the deserialized session data. -/
theorem get_resolves_none_on_absent_expired_malformed :
    ∀ (s : Store) (now : Nat) (sid : String), s.invalidConnection = false →
      (s.get now sid).store = s ∧
      (findBySid s.sessions sid = none → (s.get now sid).result = none) ∧
      (∀ r, findBySid s.sessions sid = some r → r.expiresAt ≤ now →
        (s.get now sid).result = none) ∧
      (∀ r, findBySid s.sessions sid = some r → now < r.expiresAt →
        deserialize r.data = Except.error StoreError.malformedPayload →
        (s.get now sid).result = none) ∧
      (∀ r j, findBySid s.sessions sid = some r → now < r.expiresAt →
        deserialize r.data = Except.ok j → (s.get now sid).result = some j) := by
  intro s now sid hinv
  refine ⟨?_, ?_, ?_, ?_, ?_⟩
  · simp only [Store.get]
    (repeat' split) <;> rfl
  · intro hf
    simp [Store.get, validateConnection, hinv, hf]
  · intro r hf hle
    simp [Store.get, validateConnection, hinv, hf, hle]
  · intro r hf hlt hml
    simp [Store.get, validateConnection, hinv, hf, Nat.not_le.mpr hlt, hml]
  · intro r j hf hlt hok
    simp [Store.get, validateConnection, hinv, hf, Nat.not_le.mpr hlt, hok]

/-- Witness for C2: on a concrete store whose only record for `a` expired at 3,
`get` at time 5 resolves `none`. -/
theorem get_resolves_none_witness :
    ((Store.mk false 10 none [⟨"a", "zz", 3⟩]).get 5 "a").result = none :=
  (get_resolves_none_on_absent_expired_malformed
    (Store.mk false 10 none [⟨"a", "zz", 3⟩]) 5 "a" rfl).2.2.1 ⟨"a", "zz", 3⟩ rfl
    (by decide)

/-- C3: with rounding `r` in 10/100/1000 the expiration is `now + t` floored to a
multiple of `r` — divisible by `r`, at most `now + t`, and within `r` of it — and
with no rounding it is exactly `now + t`. -/
theorem createExpiration_floors_to_rounding :
    ∀ (now t r : Nat), r = 10 ∨ r = 100 ∨ r = 1000 →
      createExpiration now t (some r) % r = 0 ∧
      createExpiration now t (some r) ≤ now + t ∧
      now + t < createExpiration now t (some r) + r ∧
      createExpiration now t none = now + t := by
  intro now t r hr
  refine ⟨?_, ?_, ?_, rfl⟩ <;> simp only [createExpiration] <;>
    rcases hr with h | h | h <;> subst h <;> omega

/-- Witness for C3 at `now = 3`, `t = 25`, `r = 10`. -/
theorem createExpiration_floors_witness :
    createExpiration 3 25 (some 10) % 10 = 0 ∧ createExpiration 3 25 (some 10) ≤ 28 :=
  ⟨(createExpiration_floors_to_rounding 3 25 10 (Or.inl rfl)).1,
   (createExpiration_floors_to_rounding 3 25 10 (Or.inl rfl)).2.1⟩

/-- C4: `prune` keeps a row exactly when its `expiresAt` is still in the future,
the surviving rows are a sublist of the original ones (so untouched), and pruning
again immediately changes nothing. -/
theorem prune_deletes_exactly_expired_and_idempotent :
    ∀ (s : Store) (now : Nat), s.invalidConnection = false →
      (∀ r, r ∈ (s.prune now).store.sessions ↔ r ∈ s.sessions ∧ now < r.expiresAt) ∧
      (s.prune now).store.sessions.Sublist s.sessions ∧
      ((s.prune now).store.prune now).store = (s.prune now).store := by
  intro s now hinv
  have hstore : (s.prune now).store
      = { s with sessions := s.sessions.filter (fun r => decide (now < r.expiresAt)) } := by
    simp [Store.prune, validateConnection, hinv]
  refine ⟨?_, ?_, ?_⟩
  · intro r
    rw [hstore]
    simp [List.mem_filter]
  · rw [hstore]
    exact List.filter_sublist _
  · rw [hstore]
    simp [Store.prune, validateConnection, hinv, List.filter_filter]

/-- Witness for C4 on a concrete store with one expired and one live row. -/
theorem prune_deletes_exactly_witness :
    (((Store.mk false 10 none [⟨"a", "d", 3⟩, ⟨"b", "d", 10⟩]).prune 5).store.prune 5).store
      = ((Store.mk false 10 none [⟨"a", "d", 3⟩, ⟨"b", "d", 10⟩]).prune 5).store :=
  (prune_deletes_exactly_expired_and_idempotent
    (Store.mk false 10 none [⟨"a", "d", 3⟩, ⟨"b", "d", 10⟩]) 5 rfl).2.2

/-- C5: deserialization inverts serialization on every JSON-representable payload,
deserialization is total — it yields either a payload or the `MalformedPayload`
error, never an escaping exception — and the concrete invalid input `"not json"`
yields `MalformedPayload`. -/
theorem serializer_roundtrip_and_malformed_total :
    (∀ j : Json, deserialize (serialize j) = Except.ok j) ∧
    (∀ s : String, (∃ j, deserialize s = Except.ok j) ∨
      deserialize s = Except.error StoreError.malformedPayload) ∧
    deserialize "not json" = Except.error StoreError.malformedPayload := by
  refine ⟨deserialize_serialize, ?_, ?_⟩
  · intro s
    cases h : deserialize s with
    | ok j => exact Or.inl ⟨j, rfl⟩
    | error e =>
      cases e
      exact Or.inr rfl
  · rfl

/-- C6: after a successful `set`, a `get` on the same sid before the stored
expiration resolves with the very data that was set. -/
theorem set_then_get_returns_data :
    ∀ (s : Store) (now now' : Nat) (sid : String) (d : Json),
      s.invalidConnection = false →
      now' < createExpiration now s.ttl s.rounding →
      (((s.set now sid d).store.get now' sid)).result = some d := by
  intro s now now' sid d hinv hexp
  have hstore : (s.set now sid d).store = { s with sessions := upsertRecord s.sessions (SessionRecord.mk sid (serialize d) (createExpiration now s.ttl s.rounding)) } := by
    simp [Store.set, validateConnection, hinv]
  rw [hstore]
  have hfind := findBySid_upsertRecord_self s.sessions
    (SessionRecord.mk sid (serialize d) (createExpiration now s.ttl s.rounding))
  simp [Store.get, validateConnection, hinv, hfind, Nat.not_le.mpr hexp,
    deserialize_serialize]

/-- Witness for C6: set `null` under `a` at time 0 with TTL 10, get it back at
time 5. -/
theorem set_then_get_witness :
    ((((Store.mk false 10 none []).set 0 "a" Json.null)).store.get 5 "a").result
      = some Json.null :=
  set_then_get_returns_data (Store.mk false 10 none []) 0 5 "a" Json.null rfl
    (by decide)

/-- C7: `touch` on an existing sid rewrites only that record's `expiresAt` —
its stored data survives and lookups of every other sid are unchanged — and
`touch` on a missing sid changes nothing and still resolves without error. -/
theorem touch_updates_only_expiry_noop_on_missing :
    ∀ (s : Store) (now : Nat) (sid : String), s.invalidConnection = false →
      (findBySid s.sessions sid = none →
        (s.touch now sid).store = s ∧ (s.touch now sid).result = some ()) ∧
      (∀ r, findBySid s.sessions sid = some r →
        (s.touch now sid).result = some () ∧
        findBySid (s.touch now sid).store.sessions sid
          = some { r with expiresAt := createExpiration now s.ttl s.rounding } ∧
        (∀ sid', ¬sid' = sid →
          findBySid (s.touch now sid).store.sessions sid' = findBySid s.sessions sid')) := by
  intro s now sid hinv
  constructor
  · intro hf
    constructor <;> simp [Store.touch, validateConnection, hinv, hf]
  · intro r hf
    have hsid : r.sid = sid := findBySid_some_sid hf
    have hstore : (s.touch now sid).store = { s with sessions := upsertRecord s.sessions ({ r with expiresAt := createExpiration now s.ttl s.rounding }) } := by
      simp [Store.touch, validateConnection, hinv, hf]
    refine ⟨by simp [Store.touch, validateConnection, hinv, hf], ?_, ?_⟩
    · rw [hstore]
      have h2 := findBySid_upsertRecord_self s.sessions
        { r with expiresAt := createExpiration now s.ttl s.rounding }
      simpa [hsid] using h2
    · intro sid' hne
      rw [hstore]
      exact findBySid_upsertRecord_other s.sessions _ sid' (by simpa [hsid] using hne)

/-- Witness for C7: touching `a` at time 7 (TTL 10) refreshes its expiry to 17
while keeping the stored data. -/
theorem touch_updates_only_expiry_witness :
    findBySid (((Store.mk false 10 none [⟨"a", "n", 3⟩]).touch 7 "a")).store.sessions "a"
      = some ⟨"a", "n", 17⟩ :=
  ((touch_updates_only_expiry_noop_on_missing
    (Store.mk false 10 none [⟨"a", "n", 3⟩]) 7 "a" rfl).2 ⟨"a", "n", 3⟩ rfl).2.1

/-- C8: the callback side of the dual calling convention fires exactly one
callback per invocation on every branch, including the disabled/error paths, and
the value it delivers is the value the promise resolves with; in particular `ids`
delivers the same list of session ids to the callback and the promise. -/
theorem callback_fires_once_with_promise_value :
    (∀ (s : Store) (now : Nat) (op : Op),
      opCallbackEvents s now op = [(runOp s now op).2.1] ∧
      (opCallbackEvents s now op).length = 1) ∧
    (∀ s : Store, opCallbackEvents s 0 Op.ids = [OpResult.sidList (s.ids).result]) := by
  have h1 : ∀ (s : Store) (now : Nat) (op : Op),
      opCallbackEvents s now op = [(runOp s now op).2.1] := by
    intro s now op
    cases op <;>
      simp only [opCallbackEvents, runOp, Store.get, Store.set, Store.touch,
        Store.destroy, Store.all, Store.ids, Store.length, Store.clear, Store.prune] <;>
      (repeat' split) <;> simp_all
  refine ⟨fun s now op => ⟨h1 s now op, by rw [h1 s now op]; rfl⟩, fun s => ?_⟩
  rw [h1 s 0 Op.ids]
  rfl

/-- C9: `destroy` resolves without error even when no row matches — missing keys
are not errors — and afterwards a row survives exactly when its sid was not among
the destroyed ones; in particular every given sid no longer resolves. -/
theorem destroy_missing_keys_are_not_errors :
    ∀ (s : Store) (sids : List String), s.invalidConnection = false →
      ((s.destroy sids).result = some ()) ∧
      (∀ r, r ∈ (s.destroy sids).store.sessions ↔ r ∈ s.sessions ∧ r.sid ∉ sids) ∧
      (∀ sid, sid ∈ sids → findBySid (s.destroy sids).store.sessions sid = none) := by
  intro s sids hinv
  have hstore : (s.destroy sids).store
      = { s with sessions := s.sessions.filter (fun r => decide (r.sid ∉ sids)) } := by
    simp [Store.destroy, validateConnection, hinv]
  refine ⟨by simp [Store.destroy, validateConnection, hinv], ?_, ?_⟩
  · intro r
    rw [hstore]
    simp [List.mem_filter]
  · intro sid hsid
    rw [hstore]
    simp only [findBySid]
    apply List.find?_eq_none.mpr
    intro x hx
    simp only [List.mem_filter, decide_eq_true_eq] at hx
    simp only [decide_eq_true_eq]
    intro heq
    exact hx.2 (heq ▸ hsid)

/-- Witness for C9: destroying a sid with no backing record on a concrete store
resolves without error. -/
theorem destroy_missing_keys_witness :
    ((Store.mk false 10 none []).destroy ["zzz"]).result = some () :=
  (destroy_missing_keys_are_not_errors (Store.mk false 10 none []) ["zzz"] rfl).1

/-- C10: `startInterval` twice is the same as once (no second concurrent timer),
`stopInterval` with no active interval changes nothing, every state reachable
from the initial scheduler state has at most one live timer, and a start followed
immediately by a stop yields zero prune invocations no matter how many periods
then elapse. -/
theorem at_most_one_pruning_interval :
    (∀ s : Sched, startInterval (startInterval s) = startInterval s) ∧
    (∀ s : Sched, s.checkInterval = none → stopInterval s = s) ∧
    (∀ evs, (schedRun Sched.init evs).live.length ≤ 1) ∧
    (∀ s : Sched, SchedInv s → s.checkInterval = none → ∀ n : Nat,
      (schedRun s (SchedEvent.start :: SchedEvent.stop ::
        List.replicate n SchedEvent.tick)).pruneCount = s.pruneCount) := by
  refine ⟨?_, ?_, ?_, ?_⟩
  · intro s
    cases hc : s.checkInterval with
    | none => simp [startInterval, hc]
    | some t => simp [startInterval, hc]
  · intro s h
    simp [stopInterval, h]
  · intro evs
    have h := schedRun_inv evs Sched.init rfl
    rw [SchedInv] at h
    rw [h]
    cases (schedRun Sched.init evs).checkInterval <;> simp
  · intro s hInv hc n
    have hlive : s.live = [] := by
      rw [SchedInv, hc] at hInv
      simpa using hInv
    simp only [schedRun, schedStep, startInterval, hc, stopInterval]
    have hfilter : (s.nextId :: s.live).filter (fun i => decide (i ≠ s.nextId)) = [] := by
      simp [hlive]
    rw [tickRun_pruneCount n _ (by exact hfilter)]

/-- Witness for C10 at the initial scheduler state with three elapsed periods. -/
theorem at_most_one_pruning_interval_witness :
    stopInterval Sched.init = Sched.init ∧
    (schedRun Sched.init (SchedEvent.start :: SchedEvent.stop ::
      List.replicate 3 SchedEvent.tick)).pruneCount = 0 :=
  ⟨at_most_one_pruning_interval.2.1 Sched.init rfl,
   at_most_one_pruning_interval.2.2.2 Sched.init rfl rfl 3⟩

end PrismaSessionStore
